import Mathlib

/-!
Verification of the Markdown-resume renderer (`convert_resume.py`).

The development shallowly embeds the two components of the source:

* `insert_markdown_text` — the inline span formatter (Python
  `insert_markdown_text`, built on the regex
  `(\*\*(?P<bold>.+?)\*\*|\*(?P<italic>.+?)\*|\[(?P<link_text>[^\]]+)\]\((?P<link_url>[^)]+)\))`
  scanned left to right with `re.finditer`);
* the line-oriented renderer `convert_md_to_docx` with its helpers
  `try_process_heading`, `add_job_block_to_doc`, `add_table_to_doc` and the
  main loop of `convert_md_to_docx` (modelled as `bodyStep` / `processBody` /
  `renderLines`).

Strings are modelled as `List Char`; Python's `str.strip`, `str.split`,
`str.splitlines`, `str.upper` and `str.startswith` are embedded explicitly.
A paragraph run sequence becomes a `List Span`; the Word document becomes an
`RDoc`: the page-header run sequence plus an ordered list of `Block` nodes.
The possible `IndexError` in `add_table_to_doc` (a data row wider than the
header row indexes past the created row's cells) is modelled by `Except`,
the error value carrying the offending table's accumulated lines.
-/

/-- The whitespace characters of Python's `str.strip()` / regex `\s`
(ASCII range, which is all the source's inputs use). -/
def isPySpace (c : Char) : Bool :=
  c = ' ' || c = '\t' || c = '\n' || c = '\r' || c = '\x0b' || c = '\x0c'

/-- Python `str.strip()`: remove leading and trailing whitespace. -/
def pyStrip (l : List Char) : List Char :=
  ((l.dropWhile isPySpace).reverse.dropWhile isPySpace).reverse

/-- Python `str.upper()` (ASCII model, enough for the comparison against
`"EMPLOYMENT HISTORY"`). -/
def pyUpper (l : List Char) : List Char :=
  l.map Char.toUpper

instance {ε α : Type} [DecidableEq ε] [DecidableEq α] : DecidableEq (Except ε α) :=
  fun x y =>
    match x, y with
    | .ok a, .ok b =>
      if h : a = b then .isTrue (by rw [h])
      else .isFalse (fun hh => h (Except.ok.inj hh))
    | .error a, .error b =>
      if h : a = b then .isTrue (by rw [h])
      else .isFalse (fun hh => h (Except.error.inj hh))
    | .ok _, .error _ => .isFalse (fun hh => Except.noConfusion hh)
    | .error _, .ok _ => .isFalse (fun hh => Except.noConfusion hh)

/-- One formatted run of inline text, as `insert_markdown_text` emits them:
plain text, `**bold**`, `*italic*`, or a `[text](url)` hyperlink. -/
inductive Span where
  | plainText (text : List Char)
  | bold (text : List Char)
  | italic (text : List Char)
  | link (text url : List Char)
deriving DecidableEq, Repr

/-- The exact source characters a span was parsed from: its text content with
the matched markup delimiters (and a link's `](url)` apparatus) reinstated. -/
def spanRaw : Span → List Char
  | .plainText t => t
  | .bold t => '*' :: '*' :: (t ++ ['*', '*'])
  | .italic t => '*' :: (t ++ ['*'])
  | .link t u => '[' :: (t ++ ']' :: '(' :: (u ++ [')']))

/-- The visible text content of a span (style ignored; a link contributes its
display text). -/
def spanText : Span → List Char
  | .plainText t => t
  | .bold t => t
  | .italic t => t
  | .link t _ => t

/-- Concatenation of the raw source text of a span list. -/
def reassembleSpans (spans : List Span) : List Char :=
  (spans.map spanRaw).flatten

/-- Concatenation of the visible text content of a span list. -/
def plainConcat (spans : List Span) : List Char :=
  (spans.map spanText).flatten

/-- Does the list start with two `'*'` characters (a candidate `**` closing
or opening delimiter)? -/
def twoStars : List Char → Bool
  | a :: b :: _ => a = '*' && b = '*'
  | _ => false

/-- Does the list start with one `'*'` character? -/
def oneStar : List Char → Bool
  | a :: _ => a = '*'
  | _ => false

/-- Non-greedy search for the closing `**` of a bold span: the shortest
non-empty newline-free content followed by `**` (regex `(.+?)\*\*`).
Returns the content and the text after the closing delimiter. -/
def findCloseBold : List Char → Option (List Char × List Char)
  | [] => none
  | c :: rest =>
    if c = '\n' then none
    else if twoStars rest then some ([c], rest.drop 2)
    else
      match findCloseBold rest with
      | some p => some (c :: p.1, p.2)
      | none => none

/-- Non-greedy search for the closing `*` of an italic span
(regex `(.+?)\*`). -/
def findCloseItalic : List Char → Option (List Char × List Char)
  | [] => none
  | c :: rest =>
    if c = '\n' then none
    else if oneStar rest then some ([c], rest.drop 1)
    else
      match findCloseItalic rest with
      | some p => some (c :: p.1, p.2)
      | none => none

/-- Split at the first occurrence of `d` (regex `([^d]+)d` with a greedy
class that cannot cross `d`): the characters before it and those after. -/
def splitAtChar (d : Char) : List Char → Option (List Char × List Char)
  | [] => none
  | c :: rest =>
    if c = d then some ([], rest)
    else
      match splitAtChar d rest with
      | some p => some (c :: p.1, p.2)
      | none => none

/-- Alternation after an opening `'*'` (the text after that star is `rest`):
first the bold branch `\*\*(.+?)\*\*` (needs a second star), then the italic
branch `\*(.+?)\*` opened at the same first star — Python's ordered `|`. -/
def tryStar (rest : List Char) : Option (Span × List Char) :=
  if oneStar rest then
    match findCloseBold (rest.drop 1) with
    | some p => some (Span.bold p.1, p.2)
    | none =>
      match findCloseItalic rest with
      | some p => some (Span.italic p.1, p.2)
      | none => none
  else
    match findCloseItalic rest with
    | some p => some (Span.italic p.1, p.2)
    | none => none

/-- The link branch `\[([^\]]+)\]\(([^)]+)\)` after an opening `'['`:
display text up to the first `]`, then a literal `(`, then the url up to the
first `)`; both parts must be non-empty. -/
def tryLink (rest : List Char) : Option (Span × List Char) :=
  match splitAtChar ']' rest with
  | none => none
  | some t =>
    if t.1.isEmpty then none
    else
      match t.2 with
      | [] => none
      | c1 :: r2 =>
        if c1 = '(' then
          match splitAtChar ')' r2 with
          | none => none
          | some u => if u.1.isEmpty then none else some (Span.link t.1 u.1, u.2)
        else none

/-- Try to match one of the three span patterns at the head of `s`
(the regex alternation anchored at the current scan position). Returns the
span and the unconsumed remainder. -/
def tryMatchSpan : List Char → Option (Span × List Char)
  | [] => none
  | c :: rest =>
    if c = '*' then tryStar rest
    else if c = '[' then tryLink rest
    else none

/-- The `re.finditer` scan of `insert_markdown_text`: move right through the
text, accumulating unmatched characters in `gap`; at each position try the
alternation, emitting the pending gap as a plain-text run before a match and
the trailing gap at the end. `fuel` only bounds the recursion; it is
irrelevant once at least `s.length` (see `formatAux_fuel_eq`), and the scan
is always run with exactly that much. -/
def formatAux : Nat → List Char → List Char → List Span
  | _, gap, [] => if gap = [] then [] else [Span.plainText gap]
  | 0, gap, s => [Span.plainText (gap ++ s)]
  | fuel + 1, gap, c :: rest =>
    match tryMatchSpan (c :: rest) with
    | some p =>
      (if gap = [] then [] else [Span.plainText gap]) ++ p.1 :: formatAux fuel [] p.2
    | none => formatAux fuel (gap ++ [c]) rest

/-- Python `insert_markdown_text(paragraph, markdown_text)`: the ordered run
sequence the source appends to a paragraph for one piece of markdown text. -/
def insert_markdown_text (text : List Char) : List Span :=
  formatAux text.length [] text

/-! ### The scan decomposes its input exactly -/

theorem twoStars_eq (l : List Char) (h : twoStars l = true) :
    l = '*' :: '*' :: l.drop 2 := by
  match l with
  | [] => simp [twoStars] at h
  | [a] => simp [twoStars] at h
  | a :: b :: rest =>
    simp only [twoStars, Bool.and_eq_true, decide_eq_true_eq] at h
    simp [h.1, h.2]

theorem oneStar_eq (l : List Char) (h : oneStar l = true) :
    l = '*' :: l.drop 1 := by
  match l with
  | [] => simp [oneStar] at h
  | a :: rest =>
    simp only [oneStar, decide_eq_true_eq] at h
    simp [h]

theorem findCloseBold_eq (l : List Char) :
    ∀ p, findCloseBold l = some p → l = p.1 ++ '*' :: '*' :: p.2 ∧ p.1 ≠ [] := by
  induction l with
  | nil => intro p h; simp [findCloseBold] at h
  | cons c rest ih =>
    intro p h
    simp only [findCloseBold] at h
    split at h
    · exact absurd h (by simp)
    · split at h
      · rename_i hnl hts
        have := twoStars_eq rest hts
        cases h
        constructor
        · simpa using this
        · simp
      · rename_i hnl hts
        match hq : findCloseBold rest with
        | none => rw [hq] at h; exact absurd h (by simp)
        | some q =>
          rw [hq] at h
          cases h
          have := ih q hq
          constructor
          · simpa using this.1
          · simp

theorem findCloseItalic_eq (l : List Char) :
    ∀ p, findCloseItalic l = some p → l = p.1 ++ '*' :: p.2 ∧ p.1 ≠ [] := by
  induction l with
  | nil => intro p h; simp [findCloseItalic] at h
  | cons c rest ih =>
    intro p h
    simp only [findCloseItalic] at h
    split at h
    · exact absurd h (by simp)
    · split at h
      · rename_i hnl hos
        have := oneStar_eq rest hos
        cases h
        constructor
        · simpa using this
        · simp
      · rename_i hnl hos
        match hq : findCloseItalic rest with
        | none => rw [hq] at h; exact absurd h (by simp)
        | some q =>
          rw [hq] at h
          cases h
          have := ih q hq
          constructor
          · simpa using this.1
          · simp

theorem splitAtChar_eq (d : Char) (l : List Char) :
    ∀ p, splitAtChar d l = some p → l = p.1 ++ d :: p.2 := by
  induction l with
  | nil => intro p h; simp [splitAtChar] at h
  | cons c rest ih =>
    intro p h
    simp only [splitAtChar] at h
    split at h
    · rename_i hc; cases h; simpa using hc
    · match hq : splitAtChar d rest with
      | none => rw [hq] at h; exact absurd h (by simp)
      | some q =>
        rw [hq] at h
        cases h
        have := ih q hq
        simpa using this

/-- A successful match at the head of `s` consumes exactly the raw text of
the produced span: `s` is that raw text followed by the remainder, and the
raw text is non-empty. -/
theorem tryMatchSpan_eq (s : List Char) (sp : Span) (r : List Char)
    (h : tryMatchSpan s = some (sp, r)) :
    s = spanRaw sp ++ r ∧ spanRaw sp ≠ [] := by
  match s with
  | [] => simp [tryMatchSpan] at h
  | c :: rest =>
    simp only [tryMatchSpan] at h
    split at h
    · -- star branch
      rename_i hc
      subst hc
      simp only [tryStar] at h
      split at h
      · rename_i hos
        have hrest := oneStar_eq rest hos
        match hb : findCloseBold (rest.drop 1) with
        | some p =>
          rw [hb] at h
          cases h
          have := findCloseBold_eq _ p hb
          constructor
          · rw [hrest]; simp [spanRaw, this.1]
          · simp [spanRaw]
        | none =>
          rw [hb] at h
          match hi : findCloseItalic rest with
          | none => rw [hi] at h; exact absurd h (by simp)
          | some q =>
            rw [hi] at h
            cases h
            have := findCloseItalic_eq _ q hi
            constructor
            · simp [spanRaw, this.1]
            · simp [spanRaw]
      · match hi : findCloseItalic rest with
        | none => rw [hi] at h; exact absurd h (by simp)
        | some q =>
          rw [hi] at h
          cases h
          have := findCloseItalic_eq _ q hi
          constructor
          · simp [spanRaw, this.1]
          · simp [spanRaw]
    · split at h
      · -- link branch
        rename_i hns hc
        subst hc
        simp only [tryLink] at h
        match ht : splitAtChar ']' rest with
        | none => rw [ht] at h; exact absurd h (by simp)
        | some t =>
          obtain ⟨t1, t2⟩ := t
          have h1 := splitAtChar_eq ']' rest (t1, t2) ht
          simp only [ht] at h
          by_cases he : t1.isEmpty = true
          · rw [if_pos he] at h; exact absurd h (by simp)
          · rw [if_neg he] at h
            cases t2 with
            | nil => exact absurd h (by simp)
            | cons c1 r2 =>
              simp only at h h1
              by_cases hp : c1 = '('
              · rw [if_pos hp] at h
                subst hp
                match hu : splitAtChar ')' r2 with
                | none => rw [hu] at h; exact absurd h (by simp)
                | some u =>
                  obtain ⟨u1, u2⟩ := u
                  have h2 := splitAtChar_eq ')' r2 (u1, u2) hu
                  simp only [hu] at h
                  by_cases hue : u1.isEmpty = true
                  · rw [if_pos hue] at h; exact absurd h (by simp)
                  · rw [if_neg hue] at h
                    cases h
                    constructor
                    · rw [h1]; simp only at h2; rw [h2]; simp [spanRaw]
                    · simp [spanRaw]
              · rw [if_neg hp] at h; exact absurd h (by simp)
      · exact absurd h (by simp)

theorem reassembleSpans_nil : reassembleSpans [] = [] := rfl

theorem reassembleSpans_cons (sp : Span) (l : List Span) :
    reassembleSpans (sp :: l) = spanRaw sp ++ reassembleSpans l := by
  simp [reassembleSpans]

theorem reassembleSpans_append (a b : List Span) :
    reassembleSpans (a ++ b) = reassembleSpans a ++ reassembleSpans b := by
  simp [reassembleSpans]

theorem gapSpans_reassemble (gap : List Char) (l : List Span) :
    reassembleSpans ((if gap = [] then [] else [Span.plainText gap]) ++ l)
      = gap ++ reassembleSpans l := by
  by_cases hg : gap = [] <;> simp [hg, reassembleSpans, spanRaw]

/-- The scan is lossless at every fuel value: re-inserting each matched
span's delimiters and concatenating gives back the pending gap followed by
the unscanned text. -/
theorem formatAux_reassemble (fuel : Nat) :
    ∀ gap s, reassembleSpans (formatAux fuel gap s) = gap ++ s := by
  induction fuel with
  | zero =>
    intro gap s
    cases s with
    | nil =>
      by_cases hg : gap = []
      · simp [formatAux, hg, reassembleSpans]
      · simp [formatAux, hg, reassembleSpans, spanRaw]
    | cons c rest => simp [formatAux, reassembleSpans, spanRaw]
  | succ fuel ih =>
    intro gap s
    cases s with
    | nil =>
      by_cases hg : gap = []
      · simp [formatAux, hg, reassembleSpans]
      · simp [formatAux, hg, reassembleSpans, spanRaw]
    | cons c rest =>
      simp only [formatAux]
      match hm : tryMatchSpan (c :: rest) with
      | some p =>
        have hd := tryMatchSpan_eq (c :: rest) p.1 p.2 (by rw [hm])
        simp only
        rw [gapSpans_reassemble, reassembleSpans_cons, ih [] p.2, List.nil_append,
          ← hd.1]
      | none =>
        simp only
        rw [ih (gap ++ [c]) rest]
        simp

/-- Fuel is irrelevant once it covers the text length: the scan with fuel
`s.length` (as `insert_markdown_text` runs it) equals the scan with any
larger fuel, so the fuel-exhausted fallback arm is never taken. -/
theorem formatAux_fuel_eq (f1 : Nat) :
    ∀ f2 gap s, s.length ≤ f1 → s.length ≤ f2 →
      formatAux f1 gap s = formatAux f2 gap s := by
  induction f1 with
  | zero =>
    intro f2 gap s h1 h2
    match s with
    | [] => cases f2 <;> rfl
    | c :: rest => simp at h1
  | succ f1 ih =>
    intro f2 gap s h1 h2
    match s with
    | [] => cases f2 <;> rfl
    | c :: rest =>
      match f2 with
      | 0 => simp at h2
      | f2 + 1 =>
        simp only [formatAux]
        match hm : tryMatchSpan (c :: rest) with
        | some p =>
          simp only
          have hd := tryMatchSpan_eq (c :: rest) p.1 p.2 (by rw [hm])
          have hlen : p.2.length ≤ rest.length := by
            have : (c :: rest).length = (spanRaw p.1).length + p.2.length := by
              rw [hd.1]; simp
            have hpos : 1 ≤ (spanRaw p.1).length :=
              List.length_pos.mpr hd.2
            simp only [List.length_cons] at this
            omega
          have h1' : p.2.length ≤ f1 := le_trans hlen (Nat.lt_succ_iff.mp h1)
          have h2' : p.2.length ≤ f2 := le_trans hlen (Nat.lt_succ_iff.mp h2)
          rw [ih f2 [] p.2 h1' h2']
        | none =>
          simp only
          exact ih f2 (gap ++ [c]) rest (Nat.lt_succ_iff.mp h1) (Nat.lt_succ_iff.mp h2)

/-! ### Heading classification (`try_process_heading`) -/

/-- The four paragraph styles `try_process_heading` can assign:
`'Heading1'`/`'Heading2'`/`'Heading3'` for levels 1–3 and the body style
`'Normal'` for every other level. -/
inductive HeadingStyle where
  | heading1
  | heading2
  | heading3
  | normal
deriving DecidableEq, Repr

/-- The `if level == 1 … elif … else 'Normal'` chain of
`try_process_heading`. -/
def headingStyleFor (level : Nat) : HeadingStyle :=
  if level = 1 then .heading1
  else if level = 2 then .heading2
  else if level = 3 then .heading3
  else .normal

/-- The regex `^(#{1,6})\s+(.*)$` of `try_process_heading`, applied to one
line: 1–6 leading `'#'` markers (seven or more fail, since the greedy
`#{1,6}` leaves another `'#'` where `\s+` needs whitespace), at least one
whitespace character, then the rest of the line; on success returns the
marker count and `group(2).strip()`. -/
def try_process_heading (line : List Char) : Option (Nat × List Char) :=
  let n := (line.takeWhile (fun c => c = '#')).length
  if 1 ≤ n ∧ n ≤ 6 then
    match line.drop n with
    | [] => none
    | c :: rest =>
      if isPySpace c then
        some (n, pyStrip ((c :: rest).dropWhile isPySpace))
      else none
  else none

/-! ### Document nodes -/

/-- One table cell: its run sequence, the `w:shd` fill set by
`set_cell_background` (none when never set), and the run font color set on
the cell's runs (none when left at the default). -/
structure TableCell where
  spans : List Span
  background : Option (List Char)
  fontColor : Option (Nat × Nat × Nat)
deriving DecidableEq, Repr

/-- One block node appended to the document: a heading paragraph (with its
level, assigned style and runs), a plain paragraph, a `'List Bullet'`
paragraph, a horizontal-rule paragraph, or a table. `keepNext` models
`paragraph_format.keep_with_next`; `centered` models
`WD_ALIGN_PARAGRAPH.CENTER`. -/
inductive Block where
  | heading (level : Nat) (style : HeadingStyle) (spans : List Span) (centered : Bool)
  | para (spans : List Span) (keepNext : Bool) (centered : Bool)
  | bulletItem (spans : List Span) (keepNext : Bool)
  | rule
  | table (header : List TableCell) (rows : List (List TableCell))
deriving DecidableEq, Repr

/-- The heading paragraph `try_process_heading` appends on a match. -/
def headingBlock (centered : Bool) (level : Nat) (text : List Char) : Block :=
  .heading level (headingStyleFor level) (insert_markdown_text text) centered

/-- The `keep_with_next` flag of a paragraph or list-item node (other nodes
never carry it). -/
def keepFlag : Block → Bool
  | .para _ k _ => k
  | .bulletItem _ k => k
  | _ => false

/-- Set `keep_with_next` on a paragraph or list-item node. -/
def setKeep : Block → Block
  | .para sp _ c => .para sp true c
  | .bulletItem sp _ => .bulletItem sp true
  | b => b

/-- Forget the `keep_with_next` flag of a node. -/
def clearKeep : Block → Block
  | .para sp _ c => .para sp false c
  | .bulletItem sp _ => .bulletItem sp false
  | b => b

/-! ### Job blocks (`add_job_block_to_doc`) -/

/-- The loop body of `add_job_block_to_doc` for one accumulated line: strip
it; skip it when empty; a `"- "` prefix yields a `'List Bullet'` paragraph of
the marker-stripped text, anything else a plain paragraph of the stripped
line. -/
def jobNode (line : List Char) : Option Block :=
  let s := pyStrip line
  if s = [] then none
  else if ("- ".data).isPrefixOf s then
    some (.bulletItem (insert_markdown_text (pyStrip (s.drop 2))) false)
  else
    some (.para (insert_markdown_text s) false false)

/-- The `for p in paragraphs[:-1]: p.paragraph_format.keep_with_next = True`
pass: set the keep flag on every node but the last. -/
def markKeep : List Block → List Block
  | [] => []
  | [b] => [b]
  | b :: rest => setKeep b :: markKeep rest

/-- Python `add_job_block_to_doc(doc, block_lines)`: the nodes it appends
for one accumulated job block. -/
def add_job_block_to_doc (block_lines : List (List Char)) : List Block :=
  markKeep (block_lines.filterMap jobNode)

/-! ### Tables (`add_table_to_doc`) -/

/-- Split on the delimiter `d`, Python `str.split`: always at least one
part, `k` delimiters give `k+1` parts. -/
def splitOnChar (d : Char) : List Char → List (List Char)
  | [] => [[]]
  | c :: rest =>
    if c = d then [] :: splitOnChar d rest
    else
      match splitOnChar d rest with
      | [] => [[c]]
      | part :: parts => (c :: part) :: parts

/-- Python `line.strip("|")`: remove leading and trailing `'|'` characters
(only those — surrounding whitespace on the raw line survives). -/
def stripPipes (l : List Char) : List Char :=
  ((l.dropWhile (fun c => c = '|')).reverse.dropWhile (fun c => c = '|')).reverse

/-- `[cell.strip() for cell in line.strip("|").split("|")]`: the cell texts
of one raw table line. -/
def parseCells (l : List Char) : List (List Char) :=
  (splitOnChar '|' (stripPipes l)).map pyStrip

/-- A header-row cell: pastel-green `C6EFCE` shading with dark-green
`RGBColor(0x00, 0x61, 0x00)` runs. -/
def headerCell (text : List Char) : TableCell :=
  ⟨insert_markdown_text text, some "C6EFCE".data, some (0x00, 0x61, 0x00)⟩

/-- A data-row cell: pastel-yellow `FFFACD` shading with black
`RGBColor(0, 0, 0)` runs. -/
def dataCell (text : List Char) : TableCell :=
  ⟨insert_markdown_text text, some "FFFACD".data, some (0, 0, 0)⟩

/-- One emitted data row: the table was created with `cols` columns, cell
`j` receives the line's `j`-th cell text styled as a data cell, and columns
past the line's cell count stay as created — empty, unshaded, default
color. -/
def dataRowCells (cols : Nat) (cells : List (List Char)) : List TableCell :=
  (List.range cols).map fun j =>
    if j < cells.length then dataCell (cells.getD j []) else ⟨[], none, none⟩

/-- Python `add_table_to_doc(doc, table_lines)`: fewer than two accumulated
lines add nothing; otherwise the first line is the header row, the second
(separator) line is discarded, and the remaining lines become data rows of a
table with `len(header_cells_text)` columns. A data line with more cells
than the header indexes `row_cells[j]` out of range — an uncaught
`IndexError`, modelled as the `Except.error` carrying the accumulated
lines. -/
def add_table_to_doc (table_lines : List (List Char)) :
    Except (List (List Char)) (List Block) :=
  match table_lines with
  | [] => .ok []
  | [_] => .ok []
  | header_line :: sep_line :: data_lines =>
    let hdr := parseCells header_line
    if data_lines.all (fun l => (parseCells l).length ≤ hdr.length) then
      .ok [.table (hdr.map headerCell)
            (data_lines.map (fun l => dataRowCells hdr.length (parseCells l)))]
    else .error (header_line :: sep_line :: data_lines)

/-! ### The main loop of `convert_md_to_docx` -/

/-- The loop state of `convert_md_to_docx`: the `in_employment` flag, the
accumulated `current_job_block` lines and the accumulated `table_lines`. -/
structure RState where
  in_employment : Bool
  current_job_block : List (List Char)
  table_lines : List (List Char)
deriving DecidableEq, Repr

/-- `if in_employment and current_job_block: add_job_block_to_doc(...)`,
emptying the accumulator: the nodes flushed and the state afterwards. -/
def flushJob (st : RState) : List Block × RState :=
  if st.in_employment && !st.current_job_block.isEmpty then
    (add_job_block_to_doc st.current_job_block, { st with current_job_block := [] })
  else ([], st)

/-- Does the list start with the character `c` (Python
`startswith` with a one-character prefix)? -/
def startsWithChar (c : Char) : List Char → Bool
  | x :: _ => x = c
  | [] => false

/-- `level == 2 and heading_text.upper() == "EMPLOYMENT HISTORY"`. -/
def isEmploymentHeading (level : Nat) (text : List Char) : Bool :=
  level == 2 && pyUpper text == "EMPLOYMENT HISTORY".data

/-- The table-flush lookahead: flush when the next line (if any) does not
start, after stripping, with `'|'`, or when the input is exhausted. -/
def flushTableNow : Option (List Char) → Bool
  | none => true
  | some nl => !startsWithChar '|' (pyStrip nl)

/-- One iteration of the main `while i < len(lines)` loop of
`convert_md_to_docx`, for the current raw `line` with lookahead `next`:
the nodes appended during this iteration and the updated state.

Branch order as in the source: horizontal rule (flushing an open job block
first), then heading — note the heading paragraph is appended *inside*
`try_process_heading`, before the job-block flush, so the heading node
precedes the flushed job nodes — then table accumulation with the
lookahead flush, then employment accumulation / bullet / plain paragraph.
A plain paragraph receives the raw line's runs; a bullet receives
`stripped[2:].strip()`. -/
def bodyStep (st : RState) (line : List Char) (next : Option (List Char)) :
    Except (List (List Char)) (List Block × RState) :=
  let stripped := pyStrip line
  if stripped = "---".data then
    .ok ((flushJob st).1 ++ [Block.rule], (flushJob st).2)
  else
    match try_process_heading stripped with
    | some lt =>
      .ok (headingBlock false lt.1 lt.2 :: (flushJob st).1,
           { (flushJob st).2 with in_employment := isEmploymentHeading lt.1 lt.2 })
    | none =>
      if startsWithChar '|' stripped then
        let tl := st.table_lines ++ [line]
        if flushTableNow next then
          match add_table_to_doc tl with
          | .ok bs => .ok (bs, { st with table_lines := [] })
          | .error e => .error e
        else .ok ([], { st with table_lines := tl })
      else if st.in_employment then
        .ok ([], { st with current_job_block := st.current_job_block ++ [line] })
      else if ("- ".data).isPrefixOf stripped then
        .ok ([Block.bulletItem (insert_markdown_text (pyStrip (stripped.drop 2))) false], st)
      else
        .ok ([Block.para (insert_markdown_text line) false false], st)

/-- The main loop over the body lines, followed by the final
`if current_job_block: …` / `if table_lines: …` flushes. -/
def processBody (st : RState) : List (List Char) → Except (List (List Char)) (List Block)
  | [] =>
    let jobBs := if st.current_job_block.isEmpty then []
                 else add_job_block_to_doc st.current_job_block
    match (if st.table_lines.isEmpty then Except.ok []
           else add_table_to_doc st.table_lines) with
    | .ok tabBs => .ok (jobBs ++ tabBs)
    | .error e => .error e
  | l :: rest =>
    match bodyStep st l rest.head? with
    | .error e => .error e
    | .ok bst =>
      match processBody bst.2 rest with
      | .error e => .error e
      | .ok bs2 => .ok (bst.1 ++ bs2)

/-- One line of the top header block (everything before the first `---`
line): blanks are skipped, headings are centered, anything else becomes a
centered paragraph of the stripped line. -/
def preambleNodes (line : List Char) : List Block :=
  let stripped := pyStrip line
  if stripped = [] then []
  else
    match try_process_heading stripped with
    | some lt => [headingBlock true lt.1 lt.2]
    | none => [.para (insert_markdown_text stripped) false true]

/-- Is the stripped line exactly the horizontal-rule marker `---`? -/
def isRuleLine (l : List Char) : Bool :=
  pyStrip l == "---".data

/-- The document the renderer builds from the (fence-stripped) input lines
and the page-header text: its page-header run sequence and block list. -/
structure RDoc where
  pageHeader : List Span
  blocks : List Block
deriving DecidableEq, Repr

/-- The rendering pass of `convert_md_to_docx` once the input text is split
into lines: the centered preamble up to the first `---` line, the run of
`---` lines as horizontal rules, then the main loop from a fresh state. -/
def renderLines (lines : List (List Char)) (header_text : List Char) :
    Except (List (List Char)) RDoc :=
  let pre := lines.takeWhile (fun l => !isRuleLine l)
  let rest := lines.dropWhile (fun l => !isRuleLine l)
  let rules := rest.takeWhile isRuleLine
  let body := rest.dropWhile isRuleLine
  match processBody ⟨false, [], []⟩ body with
  | .error e => .error e
  | .ok bs =>
    .ok ⟨insert_markdown_text header_text,
         (pre.map preambleNodes).flatten ++ rules.map (fun _ => Block.rule) ++ bs⟩

/-- Python `str.splitlines()` restricted to `'\n'` terminators (the only
ones the source produces): a trailing newline yields no extra empty line,
and the empty text has no lines. -/
def splitlines : List Char → List (List Char)
  | [] => []
  | c :: rest =>
    if c = '\n' then [] :: splitlines rest
    else
      match splitlines rest with
      | [] => [[c]]
      | l :: ls => (c :: l) :: ls

/-- The code-fence stripping of `convert_md_to_docx`: drop a first line
whose strip is ```` ```markdown ```` and a last line whose strip is
`` ``` ``. -/
def stripFences (lines : List (List Char)) : List (List Char) :=
  let l1 := match lines with
            | first :: rest => if pyStrip first = "```markdown".data then rest else lines
            | [] => lines
  match l1.getLast? with
  | some last => if pyStrip last = "```".data then l1.dropLast else l1
  | none => l1

/-- Python `convert_md_to_docx(md_file, docx_file, output_path)` as a
function of the file system (a map from paths to contents): it reads the
input markdown file itself, reads `settings/header.txt` itself (exiting
with an error message when that fails), and renders. The returned document
is what `doc.save(docx_file)` then writes. -/
def convert_md_to_docx (fs : String → Option String) (md_file : String) :
    Except String RDoc :=
  match fs md_file with
  | none => .error "unable to read input file"
  | some md_text =>
    match fs "settings/header.txt" with
    | none => .error "Error reading header file"
    | some header_text =>
      match renderLines (stripFences (splitlines md_text.data)) (pyStrip header_text.data) with
      | .ok d => .ok d
      | .error _ => .error "IndexError: list index out of range"

/-! ### Claim theorems -/

/-- Claim C1: for every input line, the ordered span sequence produced by the
inline span formatter concatenates losslessly: re-inserting each matched
span's delimiters (`**` pairs, `*` pairs, the `[…](…)` punctuation and url
of a link) reproduces the line exactly, so the concatenation of the spans'
plain-text content is precisely the line with those matched delimiters
removed, and unmatched delimiters (such as the lone `*` in
`price *was* $5 * up`) survive verbatim inside plain-text spans. -/
theorem c1_span_roundtrip :
    (∀ s : List Char, reassembleSpans (insert_markdown_text s) = s)
    ∧ insert_markdown_text "**Bold** and *Italic*".data
        = [Span.bold "Bold".data, Span.plainText " and ".data, Span.italic "Italic".data]
    ∧ insert_markdown_text "[See site](https://example.com)".data
        = [Span.link "See site".data "https://example.com".data]
    ∧ plainConcat (insert_markdown_text "price *was* $5 * up".data)
        = "price was $5 * up".data := by
  refine ⟨fun s => ?_, by decide, by decide, by decide⟩
  simpa using formatAux_reassemble s.length [] s

theorem try_process_heading_dashes :
    try_process_heading "---".data = none := by decide

/-- Claim C2: every line matching the heading pattern (1–6 `#` markers,
whitespace, then text) is rendered as a heading whose level is the marker
count; the main loop emits the heading node with the style assigned by
`headingStyleFor`, which maps levels 1, 2, 3 to three pairwise distinct
heading styles and levels 4, 5, 6 to the shared body (`Normal`) style. -/
theorem c2_heading_levels (line : List Char) (lv : Nat) (text : List Char)
    (h : try_process_heading (pyStrip line) = some (lv, text)) :
    lv = ((pyStrip line).takeWhile (fun c => c = '#')).length
    ∧ (1 ≤ lv ∧ lv ≤ 6)
    ∧ (∀ st next, ∃ bs st2, bodyStep st line next
        = .ok (Block.heading lv (headingStyleFor lv) (insert_markdown_text text) false :: bs, st2))
    ∧ (headingStyleFor 1 = HeadingStyle.heading1
       ∧ headingStyleFor 2 = HeadingStyle.heading2
       ∧ headingStyleFor 3 = HeadingStyle.heading3
       ∧ headingStyleFor 4 = HeadingStyle.normal
       ∧ headingStyleFor 5 = HeadingStyle.normal
       ∧ headingStyleFor 6 = HeadingStyle.normal)
    ∧ (HeadingStyle.heading1 ≠ HeadingStyle.heading2
       ∧ HeadingStyle.heading1 ≠ HeadingStyle.heading3
       ∧ HeadingStyle.heading2 ≠ HeadingStyle.heading3
       ∧ HeadingStyle.heading1 ≠ HeadingStyle.normal
       ∧ HeadingStyle.heading2 ≠ HeadingStyle.normal
       ∧ HeadingStyle.heading3 ≠ HeadingStyle.normal) := by
  have hlv : lv = ((pyStrip line).takeWhile (fun c => c = '#')).length
      ∧ 1 ≤ lv ∧ lv ≤ 6 := by
    simp only [try_process_heading] at h
    split at h
    · rename_i hguard
      match hd : (pyStrip line).drop ((pyStrip line).takeWhile (fun c => c = '#')).length with
      | [] => rw [hd] at h; exact absurd h (by simp)
      | c :: rest =>
        rw [hd] at h
        simp only at h
        by_cases hsp : isPySpace c = true
        · rw [if_pos hsp] at h
          have hinj := Option.some.inj h
          have h1 : ((pyStrip line).takeWhile (fun c => c = '#')).length = lv :=
            congrArg Prod.fst hinj
          subst h1
          exact ⟨rfl, hguard.1, hguard.2⟩
        · rw [if_neg hsp] at h; cases h
    · exact absurd h (by simp)
  have hne : pyStrip line ≠ "---".data := by
    intro he
    rw [he, try_process_heading_dashes] at h
    cases h
  refine ⟨hlv.1, hlv.2, ?_, by decide, by decide⟩
  intro st next
  refine ⟨(flushJob st).1,
    { (flushJob st).2 with in_employment := isEmploymentHeading lv text }, ?_⟩
  simp only [bodyStep, if_neg hne, h, headingBlock]

/-- Witness for C2 at the concrete level-4 heading line `#### Deep dive`. -/
theorem c2_heading_levels_witness :
    4 = (((pyStrip "#### Deep dive".data)).takeWhile (fun c => c = '#')).length
    ∧ (1 ≤ 4 ∧ 4 ≤ 6)
    ∧ (∀ st next, ∃ bs st2, bodyStep st "#### Deep dive".data next
        = .ok (Block.heading 4 (headingStyleFor 4)
            (insert_markdown_text "Deep dive".data) false :: bs, st2))
    ∧ (headingStyleFor 1 = HeadingStyle.heading1
       ∧ headingStyleFor 2 = HeadingStyle.heading2
       ∧ headingStyleFor 3 = HeadingStyle.heading3
       ∧ headingStyleFor 4 = HeadingStyle.normal
       ∧ headingStyleFor 5 = HeadingStyle.normal
       ∧ headingStyleFor 6 = HeadingStyle.normal)
    ∧ (HeadingStyle.heading1 ≠ HeadingStyle.heading2
       ∧ HeadingStyle.heading1 ≠ HeadingStyle.heading3
       ∧ HeadingStyle.heading2 ≠ HeadingStyle.heading3
       ∧ HeadingStyle.heading1 ≠ HeadingStyle.normal
       ∧ HeadingStyle.heading2 ≠ HeadingStyle.normal
       ∧ HeadingStyle.heading3 ≠ HeadingStyle.normal) :=
  c2_heading_levels "#### Deep dive".data 4 "Deep dive".data (by decide)

/-- Counterexample to C3's flush ordering: with a pending job line
`Acme Corp` in the employment state, processing the heading `## Skills`
emits the heading node *first* and the flushed job paragraph *after* it
(`try_process_heading` appends the heading during classification, before
the `if in_employment and current_job_block` flush) — not the flushed
job block before the heading. -/
theorem c3_counterexample :
    bodyStep ⟨true, ["Acme Corp".data], []⟩ "## Skills".data none
      = .ok ([Block.heading 2 HeadingStyle.heading2 [Span.plainText "Skills".data] false,
              Block.para [Span.plainText "Acme Corp".data] false false],
             ⟨false, [], []⟩)
    ∧ ([Block.heading 2 HeadingStyle.heading2 [Span.plainText "Skills".data] false,
        Block.para [Span.plainText "Acme Corp".data] false false]
       ≠ [Block.para [Span.plainText "Acme Corp".data] false false,
          Block.heading 2 HeadingStyle.heading2 [Span.plainText "Skills".data] false]) :=
  ⟨rfl, by decide⟩

/-- Claim C3 as amended: processing any heading sets the job-accumulation
flag to true exactly when the heading has level 2 and text case-insensitively
equal to `EMPLOYMENT HISTORY`, and clears it for any other heading; the
pending job block is flushed during the same step — but its nodes are
emitted immediately *after* the heading node, not before it — and
non-heading lines never change the flag. -/
theorem c3_employment_state (st : RState) (line : List Char)
    (next : Option (List Char)) (lv : Nat) (text : List Char)
    (hh : try_process_heading (pyStrip line) = some (lv, text)) :
    bodyStep st line next
      = .ok (Block.heading lv (headingStyleFor lv) (insert_markdown_text text) false
               :: (flushJob st).1,
             { (flushJob st).2 with in_employment := isEmploymentHeading lv text })
    ∧ (isEmploymentHeading lv text = true
        ↔ (lv = 2 ∧ pyUpper text = "EMPLOYMENT HISTORY".data))
    ∧ ((flushJob st).1
        = if st.in_employment && !st.current_job_block.isEmpty
          then add_job_block_to_doc st.current_job_block else [])
    ∧ ((flushJob st).2.current_job_block = []
        ∨ (flushJob st).2.current_job_block = st.current_job_block)
    ∧ (∀ l2 next2 out2 st2, try_process_heading (pyStrip l2) = none →
         bodyStep st l2 next2 = .ok (out2, st2) →
         st2.in_employment = st.in_employment) := by
  have hne : pyStrip line ≠ "---".data := by
    intro he
    rw [he, try_process_heading_dashes] at hh
    cases hh
  refine ⟨?_, ?_, ?_, ?_, ?_⟩
  · simp only [bodyStep, if_neg hne, hh, headingBlock]
  · simp [isEmploymentHeading]
  · unfold flushJob
    split <;> simp_all
  · unfold flushJob
    split <;> simp
  · intro l2 next2 out2 st2 hnone hstep
    simp only [bodyStep, hnone] at hstep
    by_cases hr : pyStrip l2 = "---".data
    · rw [if_pos hr] at hstep
      cases hstep
      unfold flushJob
      split <;> rfl
    · rw [if_neg hr] at hstep
      by_cases hp : startsWithChar '|' (pyStrip l2) = true
      · rw [if_pos hp] at hstep
        by_cases hf : flushTableNow next2 = true
        · rw [if_pos hf] at hstep
          match hat : add_table_to_doc (st.table_lines ++ [l2]) with
          | .ok bs => rw [hat] at hstep; cases hstep; rfl
          | .error e => rw [hat] at hstep; cases hstep
        · rw [if_neg hf] at hstep; cases hstep; rfl
      · rw [if_neg hp] at hstep
        by_cases hie : st.in_employment = true
        · rw [if_pos hie] at hstep; cases hstep; rfl
        · rw [if_neg hie] at hstep
          by_cases hb : ("- ".data).isPrefixOf (pyStrip l2) = true
          · rw [if_pos hb] at hstep; cases hstep; rfl
          · rw [if_neg hb] at hstep; cases hstep; rfl

/-- Witness for the amended C3 at the concrete heading
`## Employment History` (mixed case, entering the employment state). -/
theorem c3_employment_state_witness :
    bodyStep ⟨false, [], []⟩ "## Employment History".data none
      = .ok (Block.heading 2 (headingStyleFor 2)
               (insert_markdown_text "Employment History".data) false
               :: (flushJob ⟨false, [], []⟩).1,
             { (flushJob ⟨false, [], []⟩).2 with
                in_employment := isEmploymentHeading 2 "Employment History".data })
    ∧ (isEmploymentHeading 2 "Employment History".data = true
        ↔ (2 = 2 ∧ pyUpper "Employment History".data = "EMPLOYMENT HISTORY".data))
    ∧ ((flushJob ⟨false, [], []⟩).1
        = if (⟨false, [], []⟩ : RState).in_employment
             && !(⟨false, [], []⟩ : RState).current_job_block.isEmpty
          then add_job_block_to_doc (⟨false, [], []⟩ : RState).current_job_block else [])
    ∧ ((flushJob ⟨false, [], []⟩).2.current_job_block = []
        ∨ (flushJob ⟨false, [], []⟩).2.current_job_block
            = (⟨false, [], []⟩ : RState).current_job_block)
    ∧ (∀ l2 next2 out2 st2, try_process_heading (pyStrip l2) = none →
         bodyStep ⟨false, [], []⟩ l2 next2 = .ok (out2, st2) →
         st2.in_employment = (⟨false, [], []⟩ : RState).in_employment) :=
  c3_employment_state ⟨false, [], []⟩ "## Employment History".data none 2
    "Employment History".data (by decide)

theorem dataRowCells_length (cols : Nat) (cs : List (List Char)) :
    (dataRowCells cols cs).length = cols := by
  simp [dataRowCells]

theorem dataRowCells_getD (cols : Nat) (cs : List (List Char)) (j : Nat)
    (hj : j < cols) :
    (dataRowCells cols cs).getD j ⟨[], none, none⟩
      = if j < cs.length then dataCell (cs.getD j []) else ⟨[], none, none⟩ := by
  simp [dataRowCells, List.getD_eq_getElem?_getD, List.getElem?_range hj]

/-- Claim C4: a flushed table block of at least two lines yields one table
node whose column count is the header line's cell count; the first
accumulated line is the header row, the second (separator) line is discarded
— the result does not depend on it — and each remaining line becomes one
data row of exactly the header's width.  Every header cell carries the
`C6EFCE` background with the `(0, 0x61, 0)` accent text color; every data
cell filled from its line carries the `FFFACD` background with explicit
black text, and columns past a short line's cell count stay empty and
unstyled. -/
theorem c4_table_layout (hline sline : List Char) (dls : List (List Char))
    (bs : List Block)
    (h : add_table_to_doc (hline :: sline :: dls) = .ok bs) :
    bs = [Block.table ((parseCells hline).map headerCell)
            (dls.map fun l => dataRowCells (parseCells hline).length (parseCells l))]
    ∧ ((parseCells hline).map headerCell).length = (parseCells hline).length
    ∧ (dls.map fun l => dataRowCells (parseCells hline).length (parseCells l)).length
        = dls.length
    ∧ (∀ row ∈ dls.map fun l => dataRowCells (parseCells hline).length (parseCells l),
         row.length = (parseCells hline).length)
    ∧ (∀ c ∈ (parseCells hline).map headerCell,
         c.background = some "C6EFCE".data ∧ c.fontColor = some (0x00, 0x61, 0x00))
    ∧ (∀ l ∈ dls, ∀ j, j < (parseCells l).length →
         (dataRowCells (parseCells hline).length (parseCells l)).getD j ⟨[], none, none⟩
           = dataCell ((parseCells l).getD j []))
    ∧ (∀ c, (∃ l ∈ dls, c ∈ dataRowCells (parseCells hline).length (parseCells l)) →
         (c.background = some "FFFACD".data ∧ c.fontColor = some (0, 0, 0))
         ∨ c = ⟨[], none, none⟩)
    ∧ (∀ sline2, add_table_to_doc (hline :: sline2 :: dls) = .ok bs) := by
  simp only [add_table_to_doc] at h
  split at h
  · rename_i hcond
    have hbs : bs = [Block.table ((parseCells hline).map headerCell)
        (dls.map fun l => dataRowCells (parseCells hline).length (parseCells l))] := by
      cases h; rfl
    refine ⟨hbs, by simp, by simp, ?_, ?_, ?_, ?_, ?_⟩
    · intro row hrow
      obtain ⟨l, _, rfl⟩ := List.mem_map.mp hrow
      exact dataRowCells_length _ _
    · intro c hc
      obtain ⟨t, _, rfl⟩ := List.mem_map.mp hc
      exact ⟨rfl, rfl⟩
    · intro l hl j hj
      have hle : (parseCells l).length ≤ (parseCells hline).length := by
        have := List.all_eq_true.mp hcond l hl
        simpa using this
      rw [dataRowCells_getD _ _ j (lt_of_lt_of_le hj hle), if_pos hj]
    · intro c hc
      obtain ⟨l, _, hmem⟩ := hc
      simp only [dataRowCells, List.mem_map] at hmem
      obtain ⟨j, _, hj⟩ := hmem
      by_cases hjl : j < (parseCells l).length
      · rw [if_pos hjl] at hj
        exact Or.inl (by rw [← hj]; exact ⟨rfl, rfl⟩)
      · rw [if_neg hjl] at hj
        exact Or.inr hj.symm
    · intro sline2
      simp only [add_table_to_doc]
      rw [if_pos hcond, hbs]
  · cases h

/-- Witness for C4 at the spec's example: 4 accumulated lines (header,
separator, 2 data rows) with 3 pipe-delimited columns. -/
theorem c4_table_layout_witness :
    [Block.table ((parseCells "| a | b | c |".data).map headerCell)
       (["| 1 | 2 | 3 |".data, "| 4 | 5 | 6 |".data].map fun l =>
          dataRowCells (parseCells "| a | b | c |".data).length (parseCells l))]
    = [Block.table ((parseCells "| a | b | c |".data).map headerCell)
        (["| 1 | 2 | 3 |".data, "| 4 | 5 | 6 |".data].map fun l =>
          dataRowCells (parseCells "| a | b | c |".data).length (parseCells l))]
    ∧ ((parseCells "| a | b | c |".data).map headerCell).length
        = (parseCells "| a | b | c |".data).length
    ∧ (["| 1 | 2 | 3 |".data, "| 4 | 5 | 6 |".data].map fun l =>
        dataRowCells (parseCells "| a | b | c |".data).length (parseCells l)).length
        = (["| 1 | 2 | 3 |".data, "| 4 | 5 | 6 |".data] : List (List Char)).length
    ∧ (∀ row ∈ ["| 1 | 2 | 3 |".data, "| 4 | 5 | 6 |".data].map fun l =>
          dataRowCells (parseCells "| a | b | c |".data).length (parseCells l),
         row.length = (parseCells "| a | b | c |".data).length)
    ∧ (∀ c ∈ (parseCells "| a | b | c |".data).map headerCell,
         c.background = some "C6EFCE".data ∧ c.fontColor = some (0x00, 0x61, 0x00))
    ∧ (∀ l ∈ ["| 1 | 2 | 3 |".data, "| 4 | 5 | 6 |".data], ∀ j,
         j < (parseCells l).length →
         (dataRowCells (parseCells "| a | b | c |".data).length (parseCells l)).getD j
             ⟨[], none, none⟩
           = dataCell ((parseCells l).getD j []))
    ∧ (∀ c, (∃ l ∈ ["| 1 | 2 | 3 |".data, "| 4 | 5 | 6 |".data],
               c ∈ dataRowCells (parseCells "| a | b | c |".data).length (parseCells l)) →
         (c.background = some "FFFACD".data ∧ c.fontColor = some (0, 0, 0))
         ∨ c = ⟨[], none, none⟩)
    ∧ (∀ sline2, add_table_to_doc ("| a | b | c |".data :: sline2 ::
          ["| 1 | 2 | 3 |".data, "| 4 | 5 | 6 |".data])
        = .ok [Block.table ((parseCells "| a | b | c |".data).map headerCell)
            (["| 1 | 2 | 3 |".data, "| 4 | 5 | 6 |".data].map fun l =>
              dataRowCells (parseCells "| a | b | c |".data).length (parseCells l))]) :=
  c4_table_layout "| a | b | c |".data "| - | - | - |".data
    ["| 1 | 2 | 3 |".data, "| 4 | 5 | 6 |".data]
    [Block.table ((parseCells "| a | b | c |".data).map headerCell)
       (["| 1 | 2 | 3 |".data, "| 4 | 5 | 6 |".data].map fun l =>
          dataRowCells (parseCells "| a | b | c |".data).length (parseCells l))]
    (by decide)

theorem clearKeep_setKeep (b : Block) : clearKeep (setKeep b) = clearKeep b := by
  cases b <;> rfl

theorem jobNode_shape (l : List Char) (b : Block) (h : jobNode l = some b) :
    (∃ sp, b = .para sp false false) ∨ (∃ sp, b = .bulletItem sp false) := by
  simp only [jobNode] at h
  split at h
  · cases h
  · split at h
    · cases h; exact Or.inr ⟨_, rfl⟩
    · cases h; exact Or.inl ⟨_, rfl⟩

theorem jobNode_clearKeep (l : List Char) (b : Block) (h : jobNode l = some b) :
    clearKeep b = b := by
  rcases jobNode_shape l b h with ⟨sp, rfl⟩ | ⟨sp, rfl⟩ <;> rfl

theorem jobNode_none_iff (l : List Char) : jobNode l = none ↔ pyStrip l = [] := by
  simp only [jobNode]
  split
  · rename_i hs; simp [hs]
  · rename_i hs; split <;> simp [hs]

theorem markKeep_length (ns : List Block) : (markKeep ns).length = ns.length := by
  induction ns with
  | nil => rfl
  | cons b rest ih =>
    cases rest with
    | nil => rfl
    | cons c rest2 =>
      simp only [markKeep, List.length_cons] at ih ⊢
      omega

theorem markKeep_getElem? (ns : List Block) :
    ∀ i b0, ns[i]? = some b0 →
      (markKeep ns)[i]? = some (if i + 1 < ns.length then setKeep b0 else b0) := by
  induction ns with
  | nil => intro i b0 h; simp at h
  | cons b rest ih =>
    intro i b0 h
    cases rest with
    | nil =>
      match i with
      | 0 =>
        simp only [List.getElem?_cons_zero, Option.some.injEq] at h
        subst h
        simp [markKeep]
      | i + 1 => simp at h
    | cons c rest2 =>
      match i with
      | 0 =>
        simp only [List.getElem?_cons_zero, Option.some.injEq] at h
        subst h
        simp [markKeep]
      | i + 1 =>
        simp only [List.getElem?_cons_succ] at h
        have := ih i b0 h
        simp only [markKeep, List.getElem?_cons_succ, List.length_cons] at this ⊢
        rw [this]
        simp only [Option.some.injEq]
        split <;> split <;> first | rfl | omega

theorem markKeep_map_clearKeep (ns : List Block) :
    (markKeep ns).map clearKeep = ns.map clearKeep := by
  induction ns with
  | nil => rfl
  | cons b rest ih =>
    cases rest with
    | nil => rfl
    | cons c rest2 =>
      simp only [markKeep, List.map_cons] at ih ⊢
      rw [clearKeep_setKeep, ih]

theorem filterMap_jobNode_clearKeep (bls : List (List Char)) :
    (bls.filterMap jobNode).map clearKeep = bls.filterMap jobNode := by
  induction bls with
  | nil => rfl
  | cons l rest ih =>
    simp only [List.filterMap_cons]
    match hj : jobNode l with
    | none => exact ih
    | some b =>
      simp only [List.map_cons, ih, jobNode_clearKeep l b hj]

/-- Claim C5: flushing a job block turns every non-empty accumulated line
into one paragraph or list-item node (`jobNode`: blank lines dropped, a
`"- "` prefix becomes a marker-stripped list item, anything else a
paragraph), and the `keep_with_next` hint sits on every resulting node
except the last, which does not carry it. -/
theorem c5_job_block_keep (bls : List (List Char)) (i : Nat) (b : Block)
    (h : (add_job_block_to_doc bls)[i]? = some b) :
    (add_job_block_to_doc bls).map clearKeep = bls.filterMap jobNode
    ∧ (∀ l, pyStrip l = [] → jobNode l = none)
    ∧ (i + 1 < (add_job_block_to_doc bls).length → keepFlag b = true)
    ∧ (i + 1 = (add_job_block_to_doc bls).length → keepFlag b = false) := by
  have hmap : (add_job_block_to_doc bls).map clearKeep = bls.filterMap jobNode := by
    unfold add_job_block_to_doc
    rw [markKeep_map_clearKeep, filterMap_jobNode_clearKeep]
  have hlen : (add_job_block_to_doc bls).length = (bls.filterMap jobNode).length :=
    markKeep_length _
  have hi : i < (bls.filterMap jobNode).length := by
    have : i < (add_job_block_to_doc bls).length := by
      by_contra hge
      rw [List.getElem?_eq_none (Nat.le_of_not_lt hge)] at h
      cases h
    omega
  obtain ⟨b0, hb0⟩ : ∃ b0, (bls.filterMap jobNode)[i]? = some b0 :=
    ⟨_, List.getElem?_eq_getElem hi⟩
  have hb0mem : b0 ∈ bls.filterMap jobNode := List.getElem?_mem hb0
  obtain ⟨l0, _, hjn⟩ := List.mem_filterMap.mp hb0mem
  have hshape := jobNode_shape l0 b0 hjn
  have hmk := markKeep_getElem? (bls.filterMap jobNode) i b0 hb0
  rw [show markKeep (bls.filterMap jobNode) = add_job_block_to_doc bls from rfl] at hmk
  rw [hmk] at h
  have hbv : b = if i + 1 < (bls.filterMap jobNode).length then setKeep b0 else b0 :=
    (Option.some.inj h).symm
  refine ⟨hmap, fun l hl => (jobNode_none_iff l).mpr hl, ?_, ?_⟩
  · intro hlt
    rw [hlen] at hlt
    rw [hbv, if_pos hlt]
    rcases hshape with ⟨sp, rfl⟩ | ⟨sp, rfl⟩ <;> rfl
  · intro heq
    rw [hlen] at heq
    rw [hbv, if_neg (by omega)]
    rcases hshape with ⟨sp, rfl⟩ | ⟨sp, rfl⟩ <;> rfl

/-- Witness for C5 at a concrete job block of three non-empty lines and one
blank line: the first resulting node carries the keep-with-next hint. -/
theorem c5_job_block_keep_witness :
    (add_job_block_to_doc
        ["Acme Corp".data, "- built x".data, "".data, "2019".data]).map clearKeep
      = (["Acme Corp".data, "- built x".data, "".data, "2019".data]).filterMap jobNode
    ∧ (∀ l, pyStrip l = [] → jobNode l = none)
    ∧ (0 + 1 < (add_job_block_to_doc
          ["Acme Corp".data, "- built x".data, "".data, "2019".data]).length →
        keepFlag (Block.para [Span.plainText "Acme Corp".data] true false) = true)
    ∧ (0 + 1 = (add_job_block_to_doc
          ["Acme Corp".data, "- built x".data, "".data, "2019".data]).length →
        keepFlag (Block.para [Span.plainText "Acme Corp".data] true false) = false) :=
  c5_job_block_keep ["Acme Corp".data, "- built x".data, "".data, "2019".data] 0
    (Block.para [Span.plainText "Acme Corp".data] true false) (by decide)

/-- Counterexample to C6: in the main body a blank line is *not* skipped —
rendering a preamble-less input whose body is one empty line emits an empty
paragraph node after the rule, where the claim says the blank line should
contribute no node at all. -/
theorem c6_counterexample :
    renderLines ["---".data, "".data] []
      = .ok ⟨[], [Block.rule, Block.para [] false false]⟩
    ∧ ([Block.rule, Block.para [] false false] ≠ ([Block.rule] : List Block)) :=
  ⟨rfl, by decide⟩

/-- Claim C6 as amended: a line that is blank after trimming is skipped in
the preamble and contributes no node when a job block is flushed; but in the
main body loop a blank line falls through to the plain-paragraph branch —
outside the employment state it emits one (empty) paragraph node, and inside
it the blank line is accumulated (to be dropped at flush). -/
theorem c6_blank_lines (l : List Char) (h : pyStrip l = []) :
    preambleNodes l = []
    ∧ jobNode l = none
    ∧ (∀ st next, st.in_employment = false →
        bodyStep st l next = .ok ([Block.para (insert_markdown_text l) false false], st))
    ∧ (∀ st next, st.in_employment = true →
        bodyStep st l next
          = .ok ([], { st with current_job_block := st.current_job_block ++ [l] })) := by
  have hnh : try_process_heading (pyStrip l) = none := by
    rw [h]; decide
  have hnr : pyStrip l ≠ "---".data := by
    rw [h]; decide
  have hnp : ¬ startsWithChar '|' (pyStrip l) = true := by
    rw [h]; decide
  have hnb : ¬ ("- ".data).isPrefixOf (pyStrip l) = true := by
    rw [h]; decide
  refine ⟨?_, ?_, ?_, ?_⟩
  · simp [preambleNodes, h]
  · simp [jobNode, h]
  · intro st next hie
    simp only [bodyStep, if_neg hnr, hnh, if_neg hnp, hie, if_neg hnb]
    simp
  · intro st next hie
    simp only [bodyStep, if_neg hnr, hnh, if_neg hnp, hie]
    simp

/-- Witness for the amended C6 at the concrete whitespace-only line. -/
theorem c6_blank_lines_witness :
    preambleNodes "   ".data = []
    ∧ jobNode "   ".data = none
    ∧ (∀ st next, st.in_employment = false →
        bodyStep st "   ".data next
          = .ok ([Block.para (insert_markdown_text "   ".data) false false], st))
    ∧ (∀ st next, st.in_employment = true →
        bodyStep st "   ".data next
          = .ok ([], { st with
              current_job_block := st.current_job_block ++ ["   ".data] })) :=
  c6_blank_lines "   ".data (by decide)

/-- `add_table_to_doc` fails only on a block whose error value is the block
itself: at least a header and separator line, with some data line holding
more cells than the header. -/
theorem add_table_to_doc_error (tl e : List (List Char))
    (h : add_table_to_doc tl = .error e) :
    ∃ hl sl rest, e = hl :: sl :: rest
      ∧ ∃ l ∈ rest, (parseCells hl).length < (parseCells l).length := by
  match tl with
  | [] => cases h
  | [_] => cases h
  | hl :: sl :: dls =>
    simp only [add_table_to_doc] at h
    split at h
    · cases h
    · rename_i hcond
      cases h
      refine ⟨hl, sl, dls, rfl, ?_⟩
      rw [List.all_eq_true] at hcond
      push_neg at hcond
      obtain ⟨l, hmem, hlt⟩ := hcond
      exact ⟨l, hmem, by simpa using hlt⟩

/-- `bodyStep` fails only through a table flush. -/
theorem bodyStep_error (st : RState) (line : List Char) (next : Option (List Char))
    (e : List (List Char)) (h : bodyStep st line next = .error e) :
    ∃ hl sl rest, e = hl :: sl :: rest
      ∧ ∃ l ∈ rest, (parseCells hl).length < (parseCells l).length := by
  simp only [bodyStep] at h
  by_cases hr : pyStrip line = "---".data
  · rw [if_pos hr] at h; cases h
  · rw [if_neg hr] at h
    match hth : try_process_heading (pyStrip line) with
    | some lt => rw [hth] at h; simp only at h; cases h
    | none =>
      rw [hth] at h
      simp only at h
      by_cases hp : startsWithChar '|' (pyStrip line) = true
      · rw [if_pos hp] at h
        by_cases hf : flushTableNow next = true
        · rw [if_pos hf] at h
          match hat : add_table_to_doc (st.table_lines ++ [line]) with
          | .ok bs => rw [hat] at h; cases h
          | .error e2 =>
            rw [hat] at h
            cases h
            exact add_table_to_doc_error _ _ hat
        · rw [if_neg hf] at h; cases h
      · rw [if_neg hp] at h
        by_cases hie : st.in_employment = true
        · rw [if_pos hie] at h; cases h
        · rw [if_neg hie] at h
          by_cases hb : ("- ".data).isPrefixOf (pyStrip line) = true
          · rw [if_pos hb] at h; cases h
          · rw [if_neg hb] at h; cases h

/-- `processBody` fails only through a table flush. -/
theorem processBody_error (lines : List (List Char)) :
    ∀ st e, processBody st lines = .error e →
      ∃ hl sl rest, e = hl :: sl :: rest
        ∧ ∃ l ∈ rest, (parseCells hl).length < (parseCells l).length := by
  induction lines with
  | nil =>
    intro st e h
    simp only [processBody] at h
    by_cases ht : st.table_lines.isEmpty = true
    · rw [if_pos ht] at h; simp only at h; cases h
    · rw [if_neg ht] at h
      match hat : add_table_to_doc st.table_lines with
      | .ok bs => rw [hat] at h; simp only at h; cases h
      | .error e2 =>
        rw [hat] at h
        simp only at h
        cases h
        exact add_table_to_doc_error _ _ hat
  | cons l rest ih =>
    intro st e h
    simp only [processBody] at h
    match hbs : bodyStep st l rest.head? with
    | .error e2 =>
      rw [hbs] at h
      cases h
      exact bodyStep_error _ _ _ _ hbs
    | .ok bst =>
      rw [hbs] at h
      simp only at h
      match hpb : processBody bst.2 rest with
      | .error e2 =>
        rw [hpb] at h
        cases h
        exact ih _ _ hpb
      | .ok bs2 => rw [hpb] at h; cases h

/-- Counterexample to C7: a ragged table whose data row has more cells than
its header makes the rendering fail (the source raises `IndexError` at
`row_cells[j]`), so not every input renders without error. -/
theorem c7_counterexample :
    renderLines ["---".data, "| a |".data, "| - |".data, "| b | c |".data,
        "end".data] []
      = .error ["| a |".data, "| - |".data, "| b | c |".data] := rfl

/-- Claim C7 as amended: the line classifier's fallback rules do handle
every line, and rendering can fail in exactly one way — flushing an
accumulated table block whose header row has fewer cells than some data
row (the source's `IndexError`); any failure's error value is such a
block. -/
theorem c7_error_only_wide_tables (lines : List (List Char)) (hdr : List Char)
    (e : List (List Char)) (h : renderLines lines hdr = .error e) :
    ∃ hl sl rest, e = hl :: sl :: rest
      ∧ ∃ l ∈ rest, (parseCells hl).length < (parseCells l).length := by
  simp only [renderLines] at h
  match hpb : processBody ⟨false, [], []⟩
      ((lines.dropWhile (fun l => !isRuleLine l)).dropWhile isRuleLine) with
  | .error e2 =>
    rw [hpb] at h
    cases h
    exact processBody_error _ _ _ hpb
  | .ok bs => rw [hpb] at h; cases h

/-- Witness for the amended C7 at the concrete failing input of
`c7_counterexample`. -/
theorem c7_error_only_wide_tables_witness :
    ∃ hl sl rest,
      (["| a |".data, "| - |".data, "| b | c |".data]
        : List (List Char)) = hl :: sl :: rest
      ∧ ∃ l ∈ rest, (parseCells hl).length < (parseCells l).length :=
  c7_error_only_wide_tables
    ["---".data, "| a |".data, "| - |".data, "| b | c |".data, "end".data] []
    ["| a |".data, "| - |".data, "| b | c |".data] (by decide)

def fsHeaderA : String → Option String := fun p =>
  if p = "resume.md" then some "# Hi"
  else if p = "settings/header.txt" then some "Alice" else none

def fsHeaderB : String → Option String := fun p =>
  if p = "resume.md" then some "# Hi"
  else if p = "settings/header.txt" then some "Bob" else none

/-- Counterexample to C8: `convert_md_to_docx` loads the auxiliary header
text itself — two file systems agreeing on the input markdown file but
differing in `settings/header.txt` yield different documents, so the header
text is read by the renderer rather than received as a parameter, and the
renderer is not free of file I/O. -/
theorem c8_counterexample :
    fsHeaderA "resume.md" = fsHeaderB "resume.md"
    ∧ convert_md_to_docx fsHeaderA "resume.md"
        ≠ convert_md_to_docx fsHeaderB "resume.md" :=
  ⟨rfl, by decide⟩

/-- Claim C8 as amended: `convert_md_to_docx` performs file I/O itself — it
reads the input markdown file and loads `settings/header.txt` (failure to
read the header file is a fatal error inside the renderer), and its result
depends on nothing else in the file system: two file systems agreeing on
those two paths produce the same document. -/
theorem c8_frame (fs1 fs2 : String → Option String) (p : String)
    (h1 : fs1 p = fs2 p)
    (h2 : fs1 "settings/header.txt" = fs2 "settings/header.txt") :
    convert_md_to_docx fs1 p = convert_md_to_docx fs2 p
    ∧ (∀ fs q, fs q = none → convert_md_to_docx fs q = .error "unable to read input file")
    ∧ (∀ fs q t, fs q = some t → fs "settings/header.txt" = none →
        convert_md_to_docx fs q = .error "Error reading header file") := by
  refine ⟨?_, ?_, ?_⟩
  · unfold convert_md_to_docx
    rw [h1, h2]
  · intro fs q hq
    unfold convert_md_to_docx
    rw [hq]
  · intro fs q t hq hh
    unfold convert_md_to_docx
    rw [hq, hh]

/-- Witness for the amended C8 at two concrete file systems agreeing on
both paths. -/
theorem c8_frame_witness :
    convert_md_to_docx fsHeaderA "resume.md" = convert_md_to_docx fsHeaderA "resume.md"
    ∧ (∀ fs q, fs q = none → convert_md_to_docx fs q = .error "unable to read input file")
    ∧ (∀ fs q t, fs q = some t → fs "settings/header.txt" = none →
        convert_md_to_docx fs q = .error "Error reading header file") :=
  c8_frame fsHeaderA fsHeaderA "resume.md" rfl rfl

/-- Claim C9: a table accumulator holding fewer than two lines (for example
a lone table-row line whose successor is not a table line) flushes to
nothing — no table node, no paragraph, and no error. -/
theorem c9_short_table (tl : List (List Char)) (h : tl.length < 2) :
    add_table_to_doc tl = .ok [] := by
  match tl with
  | [] => rfl
  | [_] => rfl
  | _ :: _ :: _ => simp only [List.length_cons] at h; omega

/-- Witness for C9 at the concrete one-line accumulator. -/
theorem c9_short_table_witness :
    add_table_to_doc ["| lone row |".data] = .ok [] :=
  c9_short_table ["| lone row |".data] (by decide)

/-- Claim C10: a horizontal rule met while the employment state is active
flushes the pending job block and emits a Rule node but leaves the state
active with an empty accumulator; a subsequent non-heading, non-rule,
non-table line is accumulated into a new job block. -/
theorem c10_rule_keeps_employment (st : RState) (line l2 : List Char)
    (next next2 : Option (List Char)) (hie : st.in_employment = true) :
    (pyStrip line = "---".data →
       bodyStep st line next = .ok ((flushJob st).1 ++ [Block.rule], (flushJob st).2)
       ∧ (flushJob st).2.in_employment = true
       ∧ (flushJob st).2.current_job_block = []
       ∧ (flushJob st).1
           = (if st.current_job_block.isEmpty then []
              else add_job_block_to_doc st.current_job_block))
    ∧ (try_process_heading (pyStrip l2) = none → pyStrip l2 ≠ "---".data →
        startsWithChar '|' (pyStrip l2) = false →
        bodyStep st l2 next2
          = .ok ([], { st with current_job_block := st.current_job_block ++ [l2] })) := by
  constructor
  · intro hr
    refine ⟨?_, ?_, ?_, ?_⟩
    · simp only [bodyStep, if_pos hr]
    · unfold flushJob
      split <;> simpa using hie
    · unfold flushJob
      split
      · rfl
      · rename_i hcond
        rw [hie] at hcond
        simp only [Bool.true_and, Bool.not_eq_true', Bool.not_eq_false] at hcond
        simpa using List.isEmpty_iff.mp hcond
    · unfold flushJob
      rw [hie]
      by_cases hj : st.current_job_block.isEmpty = true
      · simp [hj]
      · simp [hj]
  · intro hnone hnr hnp
    simp only [bodyStep, if_neg hnr, hnone, hnp, hie]
    simp

/-- Witness for C10 at a concrete employment state with one pending line,
a rule line and a following plain line. -/
theorem c10_rule_keeps_employment_witness :
    (pyStrip "---".data = "---".data →
       bodyStep ⟨true, ["Acme".data], []⟩ "---".data none
         = .ok ((flushJob ⟨true, ["Acme".data], []⟩).1 ++ [Block.rule],
                (flushJob ⟨true, ["Acme".data], []⟩).2)
       ∧ (flushJob ⟨true, ["Acme".data], []⟩).2.in_employment = true
       ∧ (flushJob ⟨true, ["Acme".data], []⟩).2.current_job_block = []
       ∧ (flushJob ⟨true, ["Acme".data], []⟩).1
           = (if (["Acme".data] : List (List Char)).isEmpty then []
              else add_job_block_to_doc ["Acme".data]))
    ∧ (try_process_heading (pyStrip "new job line".data) = none →
        pyStrip "new job line".data ≠ "---".data →
        startsWithChar '|' (pyStrip "new job line".data) = false →
        bodyStep ⟨true, ["Acme".data], []⟩ "new job line".data none
          = .ok ([], { (⟨true, ["Acme".data], []⟩ : RState) with
              current_job_block := ["Acme".data] ++ ["new job line".data] })) :=
  c10_rule_keeps_employment ⟨true, ["Acme".data], []⟩ "---".data
    "new job line".data none none rfl
